import Mathlib

/-!
Verification of the quiz runner of `quiz1/quiz1.go` (package `quiz1`).

The file embeds, from the Go source:

* the `problem` record and `parseLines` (CSV rows to problems, with Go's
  out-of-range slice access surfaced as `Option.none`);
* Go's `strings.TrimSpace` (`goTrimSpace`) over the Unicode white-space
  code points that `unicode.IsSpace` recognises;
* the per-question `fmt.Scanf` token read (`scanfToken`);
* the session loop of `RunQuiz1` (`runLoop` / `runSession`): one absolute
  deadline timer created before the loop, a per-question answer goroutine,
  and a two-way select between the timer channel and the answer channel.

Time is modelled by discrete units.  The input to one session is, per
question, a `ReadEvent`: either the read never returns (`never`, e.g. an
open but silent input stream), or it returns after `delay` units with a
`ReadOutcome` (a scanned token, or a scan error — in the Go code a scan
error still sends the zero-value string `""` on the answer channel).
The deadline timer fires at absolute time `limit`; an answer is processed
only when it arrives strictly before that instant, so a simultaneous
arrival resolves to the timer (the deadline preempts anything that has
not completed strictly earlier).
-/

namespace Quiz1

/-- The `problem` struct of the Go source: a question and its expected
answer, both trimmed at load time. -/
structure problem where
  question : String
  answer : String
deriving DecidableEq, Repr

/-- Outcome of one `fmt.Scanf("%s\n", &answer)` call once it returns:
either a scanned token, or an error.  On error the Go goroutine prints a
diagnostic and still sends `answer`, which has kept its zero value `""`. -/
inductive ReadOutcome where
  | token (s : String)
  | scanError
deriving DecidableEq, Repr

/-- The string the answer goroutine sends on `answerCh` for a given
`ReadOutcome` (`answerCh <- answer` runs in both cases). -/
def delivered : ReadOutcome → String
  | .token s => s
  | .scanError => ""

/-- What the input source does for one question: either the blocking read
never returns, or it returns after `delay` time units with an outcome. -/
inductive ReadEvent where
  | never
  | at_ (delay : Nat) (outcome : ReadOutcome)
deriving DecidableEq, Repr

/-- Observable result of one session: the final score `correct`, the
reported `total` (`len(problems)`), how many questions were printed
(`displayed`), how many answers were received and compared (`evaluated`),
and whether the loop ended through the timer case (`timedOut`). -/
structure SessionResult where
  correct : Nat
  total : Nat
  displayed : Nat
  evaluated : Nat
  timedOut : Bool
deriving DecidableEq, Repr

/-- The `problemLoop` of `RunQuiz1`.  `now` is the elapsed time since the
timer was created (the timer fires at absolute time `limit`); `c`,
`disp`, `ev` accumulate correct answers, displayed questions and
evaluated answers; `tot` is `len(problems)`.

Per problem the question is printed, the answer goroutine is started and
the `select` races the timer channel against the answer channel: the
answer case runs only when the answer arrives strictly before the
deadline (`now + d < limit`); otherwise the timer case breaks the loop.
A read that never returns (or an exhausted event list) leaves only the
timer case, which fires at `limit`. -/
def runLoop : List problem → List ReadEvent → Nat → Nat → Nat → Nat → Nat → Nat →
    SessionResult
  | [], _, _, _, c, disp, ev, tot => ⟨c, tot, disp, ev, false⟩
  | _ :: _, [], _, _, c, disp, ev, tot => ⟨c, tot, disp + 1, ev, true⟩
  | _ :: _, .never :: _, _, _, c, disp, ev, tot => ⟨c, tot, disp + 1, ev, true⟩
  | p :: ps, .at_ d o :: es, now, limit, c, disp, ev, tot =>
      if now + d < limit then
        runLoop ps es (now + d) limit
          (if delivered o = p.answer then c + 1 else c) (disp + 1) (ev + 1) tot
      else
        ⟨c, tot, disp + 1, ev, true⟩

/-- One whole session of `RunQuiz1` after parsing: timer created once
(at time `0`, firing at `limit`), `correct := 0`, then the loop, then the
report `(correct, len(problems))`. -/
def runSession (ps : List problem) (es : List ReadEvent) (limit : Nat) :
    SessionResult :=
  runLoop ps es 0 limit 0 0 0 ps.length

/-- The white-space test used by Go's `strings.TrimSpace` and by `fmt`'s
token splitting (`unicode.IsSpace`): `\t \n \v \f \r`, space, NEL, NBSP
and the Unicode `White_Space` code points. -/
def goIsSpace (c : Char) : Bool :=
  let n := c.toNat
  decide ((9 ≤ n ∧ n ≤ 13) ∨ n = 32 ∨ n = 0x85 ∨ n = 0xA0 ∨ n = 0x1680 ∨
    (0x2000 ≤ n ∧ n ≤ 0x200A) ∨ n = 0x2028 ∨ n = 0x2029 ∨ n = 0x202F ∨
    n = 0x205F ∨ n = 0x3000)

/-- Go's `strings.TrimSpace`: remove leading and trailing white space. -/
def goTrimSpace (s : String) : String :=
  String.mk (((s.data.dropWhile goIsSpace).reverse.dropWhile goIsSpace).reverse)

/-- `parseLines` of the Go source: each CSV row `line` becomes
`problem{question: TrimSpace(line[0]), answer: TrimSpace(line[1])}`, in
order.  Go's slice indexing panics when the row is too short; the panic
is surfaced as `none`. -/
def parseLines : List (List String) → Option (List problem)
  | [] => some []
  | line :: rest =>
      match line.get? 0, line.get? 1 with
      | some q, some a =>
          (parseLines rest).map fun ps =>
            { question := goTrimSpace q, answer := goTrimSpace a } :: ps
      | _, _ => none

/-- The per-question read `fmt.Scanf("%s\n", &answer)` applied to the
text typed for that question: `%s` skips leading blanks, fails on an
empty line or end of input (any further white space before a token, such
as a newline, is a scan error for `Scanf`), and otherwise reads the
maximal white-space-free token.  `none` is the error case, in which the
goroutine sends `""` (see `ReadOutcome.scanError`). -/
def scanfToken (typed : String) : Option String :=
  let rest := typed.data.dropWhile (fun c => c == ' ' || c == '\t')
  match rest.head? with
  | none => none
  | some c =>
      if goIsSpace c then none
      else some (String.mk (rest.takeWhile (fun c => !goIsSpace c)))

/-- Number of exact (case-sensitive) matches between the delivered answer
and the expected answer among the first `k` questions. -/
def matchCount : List problem → List ReadEvent → Nat → Nat
  | _, _, 0 => 0
  | [], _, _ + 1 => 0
  | _ :: _, [], _ + 1 => 0
  | _ :: _, .never :: _, _ + 1 => 0
  | p :: ps, .at_ _ o :: es, k + 1 =>
      (if delivered o = p.answer then 1 else 0) + matchCount ps es k

/-- Total delay of the first `k` read events: the absolute arrival time of
the `k`-th answer, measured from the creation of the timer. -/
def cumDelay : List ReadEvent → Nat → Nat
  | _, 0 => 0
  | [], _ + 1 => 0
  | .never :: es, k + 1 => cumDelay es k
  | .at_ d _ :: es, k + 1 => d + cumDelay es k

/-- Modelled from the spec: the "naive re-implementation using a fresh
per-question timer" that §5 warns against — each question restarts its
own timer of duration `limit`, so an answer is accepted whenever its own
delay is below `limit`, regardless of total elapsed time.  Present only
to contrast with the absolute deadline of `runLoop`. -/
def runLoopFresh : List problem → List ReadEvent → Nat → Nat → Nat → Nat → Nat →
    SessionResult
  | [], _, _, c, disp, ev, tot => ⟨c, tot, disp, ev, false⟩
  | _ :: _, [], _, c, disp, ev, tot => ⟨c, tot, disp + 1, ev, true⟩
  | _ :: _, .never :: _, _, c, disp, ev, tot => ⟨c, tot, disp + 1, ev, true⟩
  | p :: ps, .at_ d o :: es, limit, c, disp, ev, tot =>
      if d < limit then
        runLoopFresh ps es limit
          (if delivered o = p.answer then c + 1 else c) (disp + 1) (ev + 1) tot
      else
        ⟨c, tot, disp + 1, ev, true⟩

/-- A session under the (wrong) per-question-timer semantics. -/
def runSessionFresh (ps : List problem) (es : List ReadEvent) (limit : Nat) :
    SessionResult :=
  runLoopFresh ps es limit 0 0 0 ps.length

/-! ### Invariants of the session loop -/

theorem runLoop_total (ps : List problem) (es : List ReadEvent)
    (now limit c disp ev tot : Nat) :
    (runLoop ps es now limit c disp ev tot).total = tot := by
  induction ps generalizing es now c disp ev with
  | nil => simp [runLoop]
  | cons p ps ih =>
    match es with
    | [] => simp [runLoop]
    | .never :: es => simp [runLoop]
    | .at_ d o :: es =>
      rw [runLoop]
      split
      · exact ih ..
      · rfl

theorem runLoop_correct_le (ps : List problem) (es : List ReadEvent)
    (now limit c disp ev tot : Nat) :
    (runLoop ps es now limit c disp ev tot).correct ≤ c + ps.length := by
  induction ps generalizing es now c disp ev with
  | nil => simp [runLoop]
  | cons p ps ih =>
    match es with
    | [] => simp [runLoop]
    | .never :: es => simp [runLoop]
    | .at_ d o :: es =>
      rw [runLoop]
      split
      · refine le_trans (ih ..) ?_
        simp only [List.length_cons]
        split <;> omega
      · simp

theorem runLoop_correct_ge (ps : List problem) (es : List ReadEvent)
    (now limit c disp ev tot : Nat) :
    c ≤ (runLoop ps es now limit c disp ev tot).correct := by
  induction ps generalizing es now c disp ev with
  | nil => simp [runLoop]
  | cons p ps ih =>
    match es with
    | [] => simp [runLoop]
    | .never :: es => simp [runLoop]
    | .at_ d o :: es =>
      rw [runLoop]
      split
      · refine le_trans ?_ (ih ..)
        split <;> omega
      · simp

theorem runLoop_evaluated_ge (ps : List problem) (es : List ReadEvent)
    (now limit c disp ev tot : Nat) :
    ev ≤ (runLoop ps es now limit c disp ev tot).evaluated := by
  induction ps generalizing es now c disp ev with
  | nil => simp [runLoop]
  | cons p ps ih =>
    match es with
    | [] => simp [runLoop]
    | .never :: es => simp [runLoop]
    | .at_ d o :: es =>
      rw [runLoop]
      split
      · exact le_trans (Nat.le_succ ev) (ih ..)
      · simp

theorem runLoop_correct_eq (ps : List problem) (es : List ReadEvent)
    (now limit c disp ev tot : Nat) :
    (runLoop ps es now limit c disp ev tot).correct =
      c + matchCount ps es ((runLoop ps es now limit c disp ev tot).evaluated - ev) := by
  induction ps generalizing es now c disp ev with
  | nil => simp [runLoop, matchCount]
  | cons p ps ih =>
    match es with
    | [] => simp [runLoop, matchCount]
    | .never :: es => simp [runLoop, matchCount]
    | .at_ d o :: es =>
      rw [runLoop]
      split
      · have hev := runLoop_evaluated_ge ps es (now + d) limit
          (if delivered o = p.answer then c + 1 else c) (disp + 1) (ev + 1) tot
        have heq := ih es (now + d)
          (if delivered o = p.answer then c + 1 else c) (disp + 1) (ev + 1)
        have hsub :
            (runLoop ps es (now + d) limit
                (if delivered o = p.answer then c + 1 else c)
                (disp + 1) (ev + 1) tot).evaluated - ev =
            ((runLoop ps es (now + d) limit
                (if delivered o = p.answer then c + 1 else c)
                (disp + 1) (ev + 1) tot).evaluated - (ev + 1)) + 1 := by
          omega
        rw [heq, hsub, matchCount]
        split <;> omega
      · simp [matchCount]

theorem runLoop_arrival_lt (ps : List problem) (es : List ReadEvent)
    (now limit c disp ev tot : Nat) (j : Nat)
    (hj : j < (runLoop ps es now limit c disp ev tot).evaluated - ev) :
    now + cumDelay es (j + 1) < limit := by
  induction ps generalizing es now c disp ev j with
  | nil => simp [runLoop] at hj
  | cons p ps ih =>
    match es with
    | [] => simp [runLoop] at hj
    | .never :: es => simp [runLoop] at hj
    | .at_ d o :: es =>
      rw [runLoop] at hj
      split at hj
      · match j with
        | 0 => simpa [cumDelay] using ‹now + d < limit›
        | j + 1 =>
          have hev := runLoop_evaluated_ge ps es (now + d) limit
            (if delivered o = p.answer then c + 1 else c) (disp + 1) (ev + 1) tot
          have hj' : j < (runLoop ps es (now + d) limit
              (if delivered o = p.answer then c + 1 else c)
              (disp + 1) (ev + 1) tot).evaluated - (ev + 1) := by omega
          have := ih es (now + d)
            (if delivered o = p.answer then c + 1 else c) (disp + 1) (ev + 1) j hj'
          simpa [cumDelay, Nat.add_assoc] using this
      · simp at hj

/-! ### Trimming and token scanning -/

theorem dropWhile_append_of_all {α : Type} (p : α → Bool) {l₁ : List α}
    (l₂ : List α) (h : ∀ a ∈ l₁, p a = true) :
    (l₁ ++ l₂).dropWhile p = l₂.dropWhile p := by
  induction l₁ with
  | nil => rfl
  | cons a l₁ ih =>
    rw [List.cons_append, List.dropWhile_cons_of_pos (h a (by simp))]
    exact ih fun a ha => h a (by simp [ha])

theorem dropWhile_of_all_neg {α : Type} (p : α → Bool) {l : List α}
    (h : ∀ a ∈ l, p a = false) : l.dropWhile p = l := by
  match l with
  | [] => rfl
  | a :: l => exact List.dropWhile_cons_of_neg (by simp [h a (by simp)])

theorem takeWhile_append_of_all {α : Type} (p : α → Bool) {l₁ : List α}
    (l₂ : List α) (h : ∀ a ∈ l₁, p a = true) :
    (l₁ ++ l₂).takeWhile p = l₁ ++ l₂.takeWhile p := by
  induction l₁ with
  | nil => rfl
  | cons a l₁ ih =>
    rw [List.cons_append, List.takeWhile_cons_of_pos (h a (by simp)),
      ih fun a ha => h a (by simp [ha]), List.cons_append]

theorem takeWhile_eq_nil_of_head {α : Type} (p : α → Bool) (l : List α)
    (h : ∀ a ∈ l.take 1, p a = false) : l.takeWhile p = [] := by
  match l with
  | [] => rfl
  | a :: l => exact List.takeWhile_cons_of_neg (by simp [h a (by simp)])

/-- On a white-space-padded single token, Go's `TrimSpace` returns
exactly the token. -/
theorem goTrimSpace_sandwich (ws1 tok ws2 : List Char)
    (h1 : ∀ c ∈ ws1, goIsSpace c = true) (h2 : tok ≠ [])
    (h3 : ∀ c ∈ tok, goIsSpace c = false)
    (h4 : ∀ c ∈ ws2, goIsSpace c = true) :
    goTrimSpace (String.mk (ws1 ++ tok ++ ws2)) = String.mk tok := by
  match tok, h2 with
  | t :: tok, _ =>
    have hdrop :
        ((ws1 ++ (t :: tok) ++ ws2).dropWhile goIsSpace) = t :: (tok ++ ws2) := by
      rw [List.append_assoc, dropWhile_append_of_all goIsSpace _ h1,
        List.cons_append,
        List.dropWhile_cons_of_neg (by simp [h3 t (by simp)])]
    have hdrop2 :
        ((t :: (tok ++ ws2)).reverse.dropWhile goIsSpace) = (t :: tok).reverse := by
      rw [show t :: (tok ++ ws2) = (t :: tok) ++ ws2 by rw [List.cons_append],
        List.reverse_append, dropWhile_append_of_all goIsSpace _
          (fun a ha => h4 a (List.mem_reverse.mp ha))]
      exact dropWhile_of_all_neg goIsSpace
        (fun a ha => h3 a (List.mem_reverse.mp ha))
    show String.mk ((((ws1 ++ (t :: tok) ++ ws2).dropWhile goIsSpace).reverse.dropWhile
        goIsSpace).reverse) = String.mk (t :: tok)
    rw [hdrop, hdrop2, List.reverse_reverse]

/-- On a blank-padded single token, the `%s` scan of `fmt.Scanf` returns
exactly the token (blanks before the token must be spaces or tabs; a
newline there would be a scan error). -/
theorem scanfToken_sandwich (ws1 tok ws2 : List Char)
    (h1 : ∀ c ∈ ws1, c = ' ' ∨ c = '\t') (h2 : tok ≠ [])
    (h3 : ∀ c ∈ tok, goIsSpace c = false)
    (h4 : ∀ c ∈ ws2, goIsSpace c = true) :
    scanfToken (String.mk (ws1 ++ tok ++ ws2)) = some (String.mk tok) := by
  match tok, h2 with
  | t :: tok, _ =>
    have hblank : ∀ c ∈ ws1, (c == ' ' || c == '\t') = true := by
      intro c hc
      rcases h1 c hc with h | h <;> simp [h]
    have ht : (t == ' ' || t == '\t') = false := by
      have := h3 t (by simp)
      rcases Bool.or_eq_false_iff.mp (by
        cases h' : (t == ' ' || t == '\t') with
        | false => rfl
        | true =>
          rcases Bool.or_eq_true_iff.mp h' with h'' | h'' <;>
            · rw [beq_iff_eq.mp h''] at this
              simp [goIsSpace] at this) with ⟨hs, htb⟩
      simp [hs, htb]
    have hdrop :
        ((ws1 ++ (t :: tok) ++ ws2).dropWhile (fun c => c == ' ' || c == '\t'))
          = t :: (tok ++ ws2) := by
      rw [List.append_assoc, dropWhile_append_of_all _ _ hblank,
        List.cons_append, List.dropWhile_cons_of_neg (by simp [ht])]
    have htake :
        (t :: (tok ++ ws2)).takeWhile (fun c => !goIsSpace c) = t :: tok := by
      rw [List.takeWhile_cons_of_pos (by simp [h3 t (by simp)]),
        takeWhile_append_of_all _ _ (fun a ha => by simp [h3 a (by simp [ha])]),
        takeWhile_eq_nil_of_head _ _ (fun a ha => by
          simp [h4 a (List.mem_of_mem_take ha)]), List.append_nil]
    simp only [scanfToken]
    rw [hdrop]
    simp only [List.head?]
    rw [if_neg (by simp [h3 t (by simp)]), htake]

/-! ### Claims -/

/-- C1: for every session (every problem sequence, every input behaviour
and every limit), the reported result satisfies
`0 ≤ correct ≤ total`, and `total` equals the number of supplied
problems, whether the session ends by exhausting the problems or by
timeout. -/
theorem claimC1 (ps : List problem) (es : List ReadEvent) (limit : Nat) :
    0 ≤ (runSession ps es limit).correct ∧
    (runSession ps es limit).correct ≤ (runSession ps es limit).total ∧
    (runSession ps es limit).total = ps.length := by
  have h := runLoop_correct_le ps es 0 limit 0 0 0 ps.length
  have ht := runLoop_total ps es 0 limit 0 0 0 ps.length
  exact ⟨Nat.zero_le _, by
    show (runLoop ps es 0 limit 0 0 0 ps.length).correct ≤
      (runLoop ps es 0 limit 0 0 0 ps.length).total
    omega, ht⟩

/-- C2: the deadline is one absolute session-wide bound fixed before the
first question: every evaluated answer arrived at a total elapsed time
strictly below `limit`, and on delays `[2, 2]` with `limit = 3` the
session accepts only the first answer, while the fresh per-question-timer
re-implementation would accept both — total allowed time is `limit`, not
`limit` per question reached. -/
theorem claimC2 :
    (∀ (ps : List problem) (es : List ReadEvent) (limit j : Nat),
        j < (runSession ps es limit).evaluated → cumDelay es (j + 1) < limit) ∧
    runSession [⟨"2+2", "4"⟩, ⟨"3+3", "6"⟩]
      [.at_ 2 (.token "4"), .at_ 2 (.token "6")] 3 = ⟨1, 2, 2, 1, true⟩ ∧
    runSessionFresh [⟨"2+2", "4"⟩, ⟨"3+3", "6"⟩]
      [.at_ 2 (.token "4"), .at_ 2 (.token "6")] 3 = ⟨2, 2, 2, 2, false⟩ := by
  refine ⟨?_, by decide, by decide⟩
  intro ps es limit j hj
  have h := runLoop_arrival_lt ps es 0 limit 0 0 0 ps.length j
    (by simpa [runSession] using hj)
  simpa using h

theorem claimC2_witness :
    0 < (runSession [⟨"2+2", "4"⟩] [.at_ 1 (.token "4")] 5).evaluated ∧
    cumDelay [.at_ 1 (.token "4")] 1 < 5 :=
  ⟨by decide, claimC2.1 [⟨"2+2", "4"⟩] [.at_ 1 (.token "4")] 5 0 (by decide)⟩

/-- C3: if the deadline fires before the current answer arrives, the
session stops at once — this question is the last one displayed, no
answer is evaluated, `correct` is unchanged — and reports; in
particular with two problems, `limit = 0`, and a late first answer, the
result is `(0, 2)` and the second question is never displayed or
evaluated. -/
theorem claimC3 :
    (∀ (p : problem) (ps : List problem) (d : Nat) (o : ReadOutcome)
        (es : List ReadEvent) (now limit c disp ev tot : Nat),
        limit ≤ now + d →
        runLoop (p :: ps) (.at_ d o :: es) now limit c disp ev tot =
          ⟨c, tot, disp + 1, ev, true⟩) ∧
    runSession [⟨"2+2", "4"⟩, ⟨"3+3", "6"⟩]
      [.at_ 1 (.token "4"), .at_ 1 (.token "6")] 0 = ⟨0, 2, 1, 0, true⟩ := by
  refine ⟨?_, by decide⟩
  intro p ps d o es now limit c disp ev tot h
  rw [runLoop, if_neg (by omega)]

theorem claimC3_witness :
    (0 : Nat) ≤ 0 + 1 ∧
    runLoop [⟨"2+2", "4"⟩] [.at_ 1 (.token "4")] 0 0 0 0 0 1 =
      ⟨0, 1, 1, 0, true⟩ :=
  ⟨by decide, claimC3.1 ⟨"2+2", "4"⟩ [] 1 (.token "4") [] 0 0 0 0 0 1 (by decide)⟩

/-- C4 counterexample: a failed read does resolve — the goroutine sends
the zero-value string `""` — so a question whose expected answer is
empty is scored correct, and a session containing a failed read can end
by exhaustion (even scoring a later question) with no deadline involved. -/
theorem claimC4_counterexample :
    (runSession [⟨"q", ""⟩] [.at_ 0 .scanError] 10).correct = 1 ∧
    (runSession [⟨"a", "4"⟩, ⟨"b", "5"⟩]
      [.at_ 0 .scanError, .at_ 1 (.token "5")] 10).timedOut = false ∧
    (runSession [⟨"a", "4"⟩, ⟨"b", "5"⟩]
      [.at_ 0 .scanError, .at_ 1 (.token "5")] 10).evaluated = 2 ∧
    (runSession [⟨"a", "4"⟩, ⟨"b", "5"⟩]
      [.at_ 0 .scanError, .at_ 1 (.token "5")] 10).correct = 1 := by
  refine ⟨by decide, by decide, by decide, by decide⟩

/-- C4 amended: a question whose read fails before the deadline is
evaluated against the empty string — it is scored correct exactly when
its expected answer is empty, the loop does not crash, and the session
moves on (here: ends by exhaustion, not by deadline). -/
theorem claimC4_amended (p : problem) (d limit : Nat) (h : d < limit) :
    runSession [p] [.at_ d .scanError] limit =
      ⟨if p.answer = "" then 1 else 0, 1, 1, 1, false⟩ := by
  by_cases hp : p.answer = ""
  · simp [runSession, runLoop, delivered, hp, h]
  · simp [runSession, runLoop, delivered, hp, Ne.symm hp, h]

theorem claimC4_amended_witness :
    0 < 1 ∧ runSession [⟨"q", "4"⟩] [.at_ 0 .scanError] 1 =
      ⟨if ("4" : String) = "" then 1 else 0, 1, 1, 1, false⟩ :=
  ⟨by decide, claimC4_amended ⟨"q", "4"⟩ 0 1 (by decide)⟩

/-- C5: for a submission that is a single token surrounded by white
space, the string delivered by the `%s` scan equals the `TrimSpace`
normalisation of the whole submission — the same normalisation applied
to the expected answer at load time — and the question is scored correct
exactly when that trimmed submission equals the expected answer; so
`"4 "` submitted for expected `"4"` counts as correct. -/
theorem claimC5 (ws1 tok ws2 : List Char)
    (h1 : ∀ c ∈ ws1, c = ' ' ∨ c = '\t') (h2 : tok ≠ [])
    (h3 : ∀ c ∈ tok, goIsSpace c = false)
    (h4 : ∀ c ∈ ws2, goIsSpace c = true)
    (p : problem) (d limit : Nat) (hd : d < limit) :
    ∃ t, scanfToken (String.mk (ws1 ++ tok ++ ws2)) = some t ∧
      t = goTrimSpace (String.mk (ws1 ++ tok ++ ws2)) ∧
      (runSession [p] [.at_ d (.token t)] limit).correct =
        if t = p.answer then 1 else 0 := by
  have h1' : ∀ c ∈ ws1, goIsSpace c = true := by
    intro c hc
    rcases h1 c hc with h | h <;> subst h <;> decide
  refine ⟨String.mk tok, scanfToken_sandwich ws1 tok ws2 h1 h2 h3 h4,
    (goTrimSpace_sandwich ws1 tok ws2 h1' h2 h3 h4).symm, ?_⟩
  simp [runSession, runLoop, delivered, hd]

theorem claimC5_witness :
    (∀ c ∈ ([] : List Char), c = ' ' ∨ c = '\t') ∧ (['4'] ≠ []) ∧
    (∀ c ∈ ['4'], goIsSpace c = false) ∧ (∀ c ∈ [' '], goIsSpace c = true) ∧
    (0 : Nat) < 1 ∧
    ∃ t, scanfToken (String.mk ([] ++ ['4'] ++ [' '])) = some t ∧
      t = goTrimSpace (String.mk ([] ++ ['4'] ++ [' '])) ∧
      (runSession [⟨"2+2", "4"⟩] [.at_ 0 (.token t)] 1).correct =
        if t = "4" then 1 else 0 :=
  ⟨by decide, by decide, by decide, by decide, by decide,
    claimC5 [] ['4'] [' '] (by decide) (by decide) (by decide) (by decide)
      ⟨"2+2", "4"⟩ 0 1 (by decide)⟩

/-- C6: with a non-empty problem sequence and `limit = 0` (the deadline
already expired), the session displays exactly the first question,
evaluates no answer, and reports `correct = 0` with `total` the number
of problems — for every input behaviour. -/
theorem claimC6 (p : problem) (ps : List problem) (es : List ReadEvent) :
    runSession (p :: ps) es 0 = ⟨0, (p :: ps).length, 1, 0, true⟩ := by
  match es with
  | [] => simp [runSession, runLoop]
  | .never :: es => simp [runSession, runLoop]
  | .at_ d o :: es => simp [runSession, runLoop]

/-- C7: `correct` starts at `0` and ends equal to the number of
evaluated questions whose delivered answer is an exact (case-sensitive)
string match with the expected answer — so it changes only by single
increments on exact matches — and along the loop it never decreases. -/
theorem claimC7 :
    (∀ (ps : List problem) (es : List ReadEvent) (limit : Nat),
        (runSession ps es limit).correct =
          matchCount ps es (runSession ps es limit).evaluated) ∧
    (∀ (ps : List problem) (es : List ReadEvent) (now limit c disp ev tot : Nat),
        c ≤ (runLoop ps es now limit c disp ev tot).correct) := by
  refine ⟨?_, runLoop_correct_ge⟩
  intro ps es limit
  have h := runLoop_correct_eq ps es 0 limit 0 0 0 ps.length
  simpa [runSession] using h

/-- C8: the session is a function of the problem sequence, the timed
answer behaviour and the limit alone — two runs on equal inputs produce
the identical result. -/
theorem claimC8 (ps₁ ps₂ : List problem) (es₁ es₂ : List ReadEvent)
    (l₁ l₂ : Nat) (h₁ : ps₁ = ps₂) (h₂ : es₁ = es₂) (h₃ : l₁ = l₂) :
    runSession ps₁ es₁ l₁ = runSession ps₂ es₂ l₂ := by
  rw [h₁, h₂, h₃]

theorem claimC8_witness :
    runSession [⟨"2+2", "4"⟩] [.at_ 1 (.token "4")] 5 =
      runSession [⟨"2+2", "4"⟩] [.at_ 1 (.token "4")] 5 :=
  claimC8 _ _ _ _ _ _ rfl rfl rfl

/-- C9: `parseLines` reads only fields 0 and 1 of each row, so it is
defined exactly on inputs whose rows all have at least two fields; on a
row with a single field the access to the second field is out of range. -/
theorem claimC9 :
    (∀ lines : List (List String),
        (parseLines lines).isSome = true ↔ ∀ l ∈ lines, 2 ≤ l.length) ∧
    parseLines [["2+2"]] = none := by
  refine ⟨?_, by decide⟩
  intro lines
  induction lines with
  | nil => simp [parseLines]
  | cons line rest ih =>
    match line with
    | [] => simp [parseLines]
    | [q] => simp [parseLines]
    | q :: a :: tl => simp [parseLines, ih]

theorem claimC9_witness :
    (parseLines [["2+2", "4"], ["3+3", "6"]]).isSome = true :=
  (claimC9.1 _).mpr (by decide)

/-- C10: on rows that all have at least two fields, `parseLines` returns
one problem per row, in order, whose question and answer are the row's
first and second field with surrounding white space removed. -/
theorem claimC10 (lines : List (List String))
    (h : ∀ l ∈ lines, 2 ≤ l.length) :
    ∃ ps, parseLines lines = some ps ∧ ps.length = lines.length ∧
      ∀ i, i < lines.length →
        ps.get? i = some
          { question := goTrimSpace ((lines.getD i []).getD 0 ""),
            answer := goTrimSpace ((lines.getD i []).getD 1 "") } := by
  induction lines with
  | nil => exact ⟨[], rfl, rfl, fun i hi => absurd hi (by simp)⟩
  | cons line rest ih =>
    obtain ⟨ps', hps', hlen, hidx⟩ := ih (fun l hl => h l (by simp [hl]))
    cases line with
    | nil => exact absurd (h [] (by simp)) (by simp)
    | cons q line2 =>
      cases line2 with
      | nil => exact absurd (h [q] (by simp)) (by simp)
      | cons a tl =>
        refine ⟨{ question := goTrimSpace q, answer := goTrimSpace a } :: ps',
          ?_, ?_, ?_⟩
        · simp [parseLines, hps']
        · simp [hlen]
        · intro i hi
          match i with
          | 0 => simp
          | i + 1 =>
            simp only [List.get?_cons_succ, List.getD_cons_succ]
            exact hidx i (by simpa using hi)

theorem claimC10_witness :
    (∀ l ∈ [[" 2+2 ", "4 "]], 2 ≤ l.length) ∧
    ∃ ps, parseLines [[" 2+2 ", "4 "]] = some ps ∧
      ps.length = List.length [[" 2+2 ", "4 "]] ∧
      ∀ i, i < List.length [[" 2+2 ", "4 "]] →
        ps.get? i = some
          { question := goTrimSpace (List.getD [[" 2+2 ", "4 "]] i [] |>.getD 0 ""),
            answer := goTrimSpace (List.getD [[" 2+2 ", "4 "]] i [] |>.getD 1 "") } :=
  ⟨by decide, claimC10 _ (by decide)⟩

end Quiz1
